import Mathlib

/-!
Verification of the Barnsley Fern generator (src/barnsley_fern.py).

Shallow embedding of the point-generation core `barnsley_fern` of
`src/barnsley_fern.py`.  Python floats are modelled as exact rationals `ℚ`
(all coefficients of the transform table are decimal literals, exact in `ℚ`);
the stream of `random.random()` draws is modelled as a function `ℕ → ℚ`
giving the successive draws.  The fallible entry point returns `Except`:
the Python code performs no argument validation, so for `num_points < 0`
the failure is numpy's `ValueError` raised by `np.zeros`, and for
`num_points = 0` it is the `IndexError` raised by the assignment
`x[0], y[0] = 0, 0` on empty arrays.
-/

set_option maxHeartbeats 1000000

/-- A generated point: the pair `(x[i], y[i])` of the two coordinate arrays. -/
abbrev Point : Type := ℚ × ℚ

/-- Errors `barnsley_fern` can signal.  `valueError` is numpy's `ValueError`
("negative dimensions are not allowed") raised by `np.zeros(num_points)` for
negative `num_points`; `indexError` is the `IndexError` raised by
`x[0], y[0] = 0, 0` when the arrays are empty (`num_points = 0`).
`invalidArgument` is the error class that §7 of the specification demands for
`N < 1`; the source code never raises it (it has no argument validation), and
it is included only so that statements can compare the actual failure against
the specified one. -/
inductive PyError : Type
  | valueError
  | indexError
  | invalidArgument
deriving DecidableEq

/-- One iteration of the generation loop (lines 43–64 of the source): given
the fresh draw `r = random.random()` and the previous point
`(prev_x, prev_y)`, compute `(x[i], y[i])` by the `if r < 0.01 / elif
r < 0.86 / elif r < 0.93 / else` chain, each branch the literal affine
expression of the code. -/
def fernStep (r : ℚ) (p : Point) : Point :=
  if r < 0.01 then
    (0 * p.1 + 0 * p.2 + 0, 0 * p.1 + 0.25 * p.2 + 0)
  else if r < 0.86 then
    (0.80 * p.1 + 0.08 * p.2 + 0, (-0.08) * p.1 + 0.80 * p.2 + 1.8)
  else if r < 0.93 then
    (0.30 * p.1 + (-0.35) * p.2 + 0, 0.35 * p.1 + 0.30 * p.2 + 1.8)
  else
    ((-0.25) * p.1 + 0.35 * p.2 + 0, 0.35 * p.1 + 0.30 * p.2 + 0.6)

/-- Iterating `fernStep` from a start point: `iterFrom rng p i` is the point
after `i` loop iterations starting from `p`, iteration `j` consuming draw
`rng j`. -/
def iterFrom (rng : ℕ → ℚ) (p : Point) : ℕ → Point
  | 0 => p
  | i + 1 => fernStep (rng i) (iterFrom rng p i)

/-- The point `fernPoint rng i` is the point the loop stores at index `i`: index 0 is
the starting point `(0, 0)` (lines 31–35), and index `i ≥ 1` is obtained from
index `i - 1` by `fernStep` with the `(i-1)`-th draw (the draw of the loop
iteration with counter `i`). -/
def fernPoint (rng : ℕ → ℚ) (i : ℕ) : Point :=
  iterFrom rng ((0 : ℚ), (0 : ℚ)) i

/-- The generator `barnsley_fern(num_points)` of lines 20–66, with the draw
stream made explicit.  Negative `num_points` fails at `np.zeros` with
`ValueError`; `num_points = 0` fails at `x[0], y[0] = 0, 0` with
`IndexError`; otherwise the result is the sequence of points at indices
`0, …, num_points - 1`, zipping the returned `x` and `y` arrays. -/
def barnsley_fern (num_points : ℤ) (rng : ℕ → ℚ) : Except PyError (List Point) :=
  if num_points < 0 then Except.error PyError.valueError
  else if num_points = 0 then Except.error PyError.indexError
  else Except.ok ((List.range num_points.toNat).map (fernPoint rng))

/-- Small-step model of the `for i in range(1, num_points)` loop itself:
`loopState rng n k` is the pair (loop counter, contents of the point arrays)
after `k` executed iterations.  The initial state has counter `1` (the first
value of `range(1, n)`) and all-zero arrays (after `np.zeros` and the
assignment `x[0], y[0] = 0, 0`).  An iteration fires only while the counter
is below `n`, writes index `i` from index `i - 1` using the fresh draw, and
increments the counter; once the counter reaches `n` the state is final. -/
def loopState (rng : ℕ → ℚ) (n : ℕ) : ℕ → ℕ × (ℕ → Point)
  | 0 => (1, fun _ => ((0 : ℚ), (0 : ℚ)))
  | k + 1 =>
    let s := loopState rng n k
    if s.1 < n then
      (s.1 + 1, fun j => if j = s.1 then fernStep (rng (s.1 - 1)) (s.2 (s.1 - 1)) else s.2 j)
    else s

/-- The state of the Python interpreter visible to `barnsley_fern`: the
global `random` module state (the stream of future draws together with a
cursor counting how many draws have already been taken) and an abstract
`world` component standing for every other piece of program state, which the
generator never touches. -/
structure PyRandomState (W : Type) : Type where
  stream : ℕ → ℚ
  cursor : ℕ
  world : W

/-- The call `random.random()`: returns the next draw of the global stream and
advances the global cursor by one. -/
def random_random {W : Type} (s : PyRandomState W) : ℚ × PyRandomState W :=
  (s.stream s.cursor, ⟨s.stream, s.cursor + 1, s.world⟩)

/-- State-passing form of the generation loop: `fernGenSt k p s` runs `k`
iterations from previous point `p`, each drawing once via `random_random`,
and returns the list of points written (indices after the start point)
together with the final interpreter state. -/
def fernGenSt {W : Type} : ℕ → Point → PyRandomState W → List Point × PyRandomState W
  | 0, _, s => ([], s)
  | k + 1, p, s =>
    let rs := random_random s
    let q := fernStep rs.1 p
    let rest := fernGenSt k q rs.2
    (q :: rest.1, rest.2)

/-- State-passing form of `barnsley_fern`: the same computation as
`barnsley_fern`, threading the Python interpreter state (global `random`
module plus untouched world) instead of taking the draw stream as an
argument.  Failures occur before any draw, so the state is returned
unchanged on the error paths. -/
def barnsley_fern_st {W : Type} (num_points : ℤ) (s : PyRandomState W) :
    Except PyError (List Point) × PyRandomState W :=
  if num_points < 0 then (Except.error PyError.valueError, s)
  else if num_points = 0 then (Except.error PyError.indexError, s)
  else
    let out := fernGenSt (num_points.toNat - 1) ((0 : ℚ), (0 : ℚ)) s
    (Except.ok (((0 : ℚ), (0 : ℚ)) :: out.1), out.2)

/-- Modelled from the spec: the affine map of a table row, `x' = a·x + b·y + e`,
`y' = c·x + d·y + f` (§3, Data Model, "Transform"). -/
def affineMap (a b c d e f : ℚ) (p : Point) : Point :=
  (a * p.1 + b * p.2 + e, c * p.1 + d * p.2 + f)

/-- Modelled from the spec: the cumulative upper bounds of the four rows of
the fixed transform table (§4.1): Stem 0.01, Main leaflets 0.86, Left leaflet
0.93, Right leaflet 1.00. -/
def cumBound : Fin 4 → ℚ
  | 0 => 0.01
  | 1 => 0.86
  | 2 => 0.93
  | 3 => 1

/-- Modelled from the spec: the affine transforms of the four table rows
(§4.1), in table order: Stem, Main leaflets, Left leaflet, Right leaflet. -/
def specTransform : Fin 4 → Point → Point
  | 0 => affineMap 0 0 0 0.25 0 0
  | 1 => affineMap 0.80 0.08 (-0.08) 0.80 0 1.8
  | 2 => affineMap 0.30 (-0.35) 0.35 0.30 0 1.8
  | 3 => affineMap (-0.25) 0.35 0.35 0.30 0 0.6

/-- Modelled from the spec: row `t` is the first row (in table order) whose
cumulative upper bound exceeds the draw `r` (§4.1, selection rule). -/
def firstExceeding (r : ℚ) (t : Fin 4) : Prop :=
  r < cumBound t ∧ ∀ s : Fin 4, s < t → ¬ r < cumBound s

/-- The row the code's `if/elif` chain selects for a draw `r`. -/
def selIndex (r : ℚ) : Fin 4 :=
  if r < 0.01 then 0 else if r < 0.86 then 1 else if r < 0.93 then 2 else 3

/-- The bounded region of claim C8: both coordinates lie in `[-15, 15]`. -/
def bound15 (p : Point) : Prop :=
  -15 ≤ p.1 ∧ p.1 ≤ 15 ∧ -15 ≤ p.2 ∧ p.2 ≤ 15

/-- A concrete draw stream used in witnesses: every draw is `1/2`. -/
def rngHalf : ℕ → ℚ := fun _ => 1/2

/-- A second concrete draw stream, pointwise equal to `rngHalf` but not
definitionally so. -/
def rngHalfB : ℕ → ℚ := fun _ => 2/4

/-- A concrete initial interpreter state used in witnesses. -/
def st0 : PyRandomState Unit := ⟨rngHalf, 0, ()⟩

/-! ## Basic lemmas about the embedding -/

lemma fernPoint_zero (rng : ℕ → ℚ) : fernPoint rng 0 = ((0 : ℚ), (0 : ℚ)) := rfl

lemma fernPoint_succ (rng : ℕ → ℚ) (i : ℕ) :
    fernPoint rng (i + 1) = fernStep (rng i) (fernPoint rng i) := rfl

lemma barnsley_fern_pos (n : ℤ) (rng : ℕ → ℚ) (h : 1 ≤ n) :
    barnsley_fern n rng = Except.ok ((List.range n.toNat).map (fernPoint rng)) := by
  unfold barnsley_fern
  rw [if_neg (by omega), if_neg (by omega)]

/-- C1: for every integer `N ≥ 1` and every stream of draws, `barnsley_fern N`
returns a sequence of exactly `N` points whose point at index 0 is `(0, 0)`,
and `barnsley_fern 1` returns only the origin point. -/
theorem c1_length_and_origin (n : ℤ) (rng : ℕ → ℚ) (h : 1 ≤ n) :
    ∃ pts : List Point, barnsley_fern n rng = Except.ok pts ∧
      pts.length = n.toNat ∧ pts.head? = some ((0 : ℚ), (0 : ℚ)) ∧
      (n = 1 → pts = [((0 : ℚ), (0 : ℚ))]) := by
  refine ⟨(List.range n.toNat).map (fernPoint rng), barnsley_fern_pos n rng h, ?_, ?_, ?_⟩
  · simp
  · obtain ⟨k, hk⟩ : ∃ k, n.toNat = k + 1 := ⟨n.toNat - 1, by omega⟩
    rw [hk, List.range_succ_eq_map]
    rfl
  · intro h1
    subst h1
    rfl

/-- Witness for C1 at `N = 1`. -/
theorem c1_length_and_origin_witness :
    (1 : ℤ) ≤ 1 ∧ ∃ pts : List Point, barnsley_fern 1 rngHalf = Except.ok pts ∧
      pts.length = (1 : ℤ).toNat ∧ pts.head? = some ((0 : ℚ), (0 : ℚ)) ∧
      ((1 : ℤ) = 1 → pts = [((0 : ℚ), (0 : ℚ))]) :=
  ⟨by norm_num, c1_length_and_origin 1 rngHalf (by norm_num)⟩

/-- C3: every branch of the generation step computes exactly the affine map
`x' = a·x + b·y + e`, `y' = c·x + d·y + f` with the coefficients of the
spec's table: Stem `(0,0,0,0.25,0,0)`, Main leaflets
`(0.80,0.08,-0.08,0.80,0,1.8)`, Left leaflet `(0.30,-0.35,0.35,0.30,0,1.8)`,
Right leaflet `(-0.25,0.35,0.35,0.30,0,0.6)`. -/
theorem c3_transform_coefficients (r : ℚ) (p : Point) :
    fernStep r p =
      if r < 0.01 then affineMap 0 0 0 0.25 0 0 p
      else if r < 0.86 then affineMap 0.80 0.08 (-0.08) 0.80 0 1.8 p
      else if r < 0.93 then affineMap 0.30 (-0.35) 0.35 0.30 0 1.8 p
      else affineMap (-0.25) 0.35 0.35 0.30 0 0.6 p := by
  unfold fernStep affineMap
  split_ifs <;> rfl

/-- Counterexample for C4: at `N = 0` the code fails with the `IndexError`
raised while writing the start point into empty arrays, and at `N = -1` with
numpy's `ValueError`; neither failure is the `InvalidArgument` error the
claim names, because the code performs no argument validation. -/
theorem c4_counterexample :
    barnsley_fern 0 rngHalf = Except.error PyError.indexError ∧
    barnsley_fern (-1) rngHalf = Except.error PyError.valueError ∧
    barnsley_fern 0 rngHalf ≠ Except.error PyError.invalidArgument ∧
    barnsley_fern (-1) rngHalf ≠ Except.error PyError.invalidArgument := by
  refine ⟨rfl, rfl, ?_, ?_⟩ <;> simp [barnsley_fern]

/-- C4 (amended): for every `N < 1` the generator fails and returns no
partial sequence, the failure being numpy's `ValueError` for negative `N`
and an `IndexError` for `N = 0` rather than an `InvalidArgument` error. -/
theorem c4_invalid_n_fails (n : ℤ) (rng : ℕ → ℚ) (h : n < 1) :
    barnsley_fern n rng =
      Except.error (if n < 0 then PyError.valueError else PyError.indexError) := by
  unfold barnsley_fern
  by_cases h0 : n < 0
  · rw [if_pos h0, if_pos h0]
  · rw [if_neg h0, if_neg h0, if_pos (by omega)]

/-- Witness for C4's amended theorem at `N = 0`. -/
theorem c4_invalid_n_fails_witness :
    (0 : ℤ) < 1 ∧ barnsley_fern 0 rngHalf =
      Except.error (if (0 : ℤ) < 0 then PyError.valueError else PyError.indexError) :=
  ⟨by norm_num, c4_invalid_n_fails 0 rngHalf (by norm_num)⟩

/-- C5: two runs with the same `N` and the same stream of draws produce
identical results: the output is a deterministic function of `N` and the
draw stream. -/
theorem c5_reproducibility (n : ℤ) (r1 r2 : ℕ → ℚ) (h : ∀ i, r1 i = r2 i) :
    barnsley_fern n r1 = barnsley_fern n r2 := by
  rw [funext h]

/-- Witness for C5 on two pointwise-equal concrete streams. -/
theorem c5_reproducibility_witness :
    barnsley_fern 3 rngHalf = barnsley_fern 3 rngHalfB :=
  c5_reproducibility 3 rngHalf rngHalfB (fun i => by norm_num [rngHalf, rngHalfB])

/-- C10: prefix stability: for `1 ≤ N ≤ M` and one and the same draw stream,
the output of length `N` is the first `N` points of the output of length
`M`. -/
theorem c10_prefix_stability (n m : ℤ) (rng : ℕ → ℚ) (h1 : 1 ≤ n) (h2 : n ≤ m) :
    ∃ ps qs : List Point, barnsley_fern n rng = Except.ok ps ∧
      barnsley_fern m rng = Except.ok qs ∧ ps = qs.take n.toNat := by
  refine ⟨(List.range n.toNat).map (fernPoint rng), (List.range m.toNat).map (fernPoint rng),
    barnsley_fern_pos n rng h1, barnsley_fern_pos m rng (by omega), ?_⟩
  rw [← List.map_take, List.take_range, Nat.min_eq_left (by omega)]

/-- Witness for C10 at `N = 1`, `M = 2`. -/
theorem c10_prefix_stability_witness :
    (1 : ℤ) ≤ 1 ∧ (1 : ℤ) ≤ 2 ∧
    ∃ ps qs : List Point, barnsley_fern 1 rngHalf = Except.ok ps ∧
      barnsley_fern 2 rngHalf = Except.ok qs ∧ ps = qs.take (1 : ℤ).toNat :=
  ⟨by norm_num, by norm_num, c10_prefix_stability 1 2 rngHalf (by norm_num) (by norm_num)⟩

/-! ## Bounded region (C8) -/

/-- C8: the box `[-15, 15] × [-15, 15]` is preserved by every branch of the
generation step (for any draw), and therefore every point the generator
produces from the start point `(0, 0)` lies in it: the coordinate ranges of
any generated point cloud are bounded. -/
theorem c8_bounded_region :
    (∀ (r : ℚ) (p : Point), bound15 p → bound15 (fernStep r p)) ∧
    (∀ (rng : ℕ → ℚ) (i : ℕ), bound15 (fernPoint rng i)) := by
  have hstep : ∀ (r : ℚ) (p : Point), bound15 p → bound15 (fernStep r p) := by
    intro r p hp
    simp only [bound15] at hp ⊢
    obtain ⟨h1, h2, h3, h4⟩ := hp
    unfold fernStep
    split_ifs <;> refine ⟨?_, ?_, ?_, ?_⟩ <;> dsimp only <;> linarith
  refine ⟨hstep, ?_⟩
  intro rng i
  induction i with
  | zero =>
    show bound15 ((0 : ℚ), (0 : ℚ))
    norm_num [bound15]
  | succ k ih =>
    exact hstep (rng k) (fernPoint rng k) ih

/-- Witness for C8's preservation part at a concrete draw and point. -/
theorem c8_bounded_region_witness : bound15 (fernStep (1/2) ((3 : ℚ), 4)) :=
  c8_bounded_region.1 (1/2) ((3 : ℚ), 4) (by norm_num [bound15])

/-! ## Transform selection (C2) -/

lemma firstExceeding_iff (r : ℚ) (h1 : r < 1) (t : Fin 4) :
    firstExceeding r t ↔ t = selIndex r := by
  unfold firstExceeding selIndex
  by_cases hA : r < 0.01
  · rw [if_pos hA]
    constructor
    · rintro ⟨hlt, hmin⟩
      by_contra hne
      exact hmin 0 (Fin.pos_of_ne_zero hne) hA
    · rintro rfl
      exact ⟨hA, fun s hs => absurd hs (Fin.not_lt_zero s)⟩
  · by_cases hB : r < 0.86
    · rw [if_neg hA, if_pos hB]
      constructor
      · rintro ⟨hlt, hmin⟩
        fin_cases t
        · exact absurd hlt hA
        · rfl
        · exact absurd hB (hmin 1 (by decide))
        · exact absurd hB (hmin 1 (by decide))
      · rintro rfl
        refine ⟨hB, ?_⟩
        intro s hs
        fin_cases s
        · exact hA
        · exact absurd hs (by decide)
        · exact absurd hs (by decide)
        · exact absurd hs (by decide)
    · by_cases hC : r < 0.93
      · rw [if_neg hA, if_neg hB, if_pos hC]
        constructor
        · rintro ⟨hlt, hmin⟩
          fin_cases t
          · exact absurd hlt hA
          · exact absurd hlt hB
          · rfl
          · exact absurd hC (hmin 2 (by decide))
        · rintro rfl
          refine ⟨hC, ?_⟩
          intro s hs
          fin_cases s
          · exact hA
          · exact hB
          · exact absurd hs (by decide)
          · exact absurd hs (by decide)
      · rw [if_neg hA, if_neg hB, if_neg hC]
        constructor
        · rintro ⟨hlt, hmin⟩
          fin_cases t
          · exact absurd hlt hA
          · exact absurd hlt hB
          · exact absurd hlt hC
          · rfl
        · rintro rfl
          refine ⟨h1, ?_⟩
          intro s hs
          fin_cases s
          · exact hA
          · exact hB
          · exact hC
          · exact absurd hs (by decide)

/-- C2: for every index `i ≥ 1`, the point at index `i` is obtained by
drawing the single fresh draw of that iteration and applying to the point at
index `i - 1` the first table row whose cumulative upper bound among
`{0.01, 0.86, 0.93, 1.00}` exceeds the draw; for every draw in `[0, 1)`
exactly one of the four rows is selected. -/
theorem c2_selection_rule (rng : ℕ → ℚ) (i : ℕ) (hr0 : 0 ≤ rng i) (hr1 : rng i < 1) :
    (∃! t : Fin 4, firstExceeding (rng i) t) ∧
    ∀ t : Fin 4, firstExceeding (rng i) t →
      fernPoint rng (i + 1) = specTransform t (fernPoint rng i) := by
  have hiff := firstExceeding_iff (rng i) hr1
  constructor
  · exact ⟨selIndex (rng i), (hiff _).mpr rfl, fun y hy => (hiff y).mp hy⟩
  · intro t ht
    have heq := (hiff t).mp ht
    subst heq
    show fernStep (rng i) (fernPoint rng i) = specTransform (selIndex (rng i)) (fernPoint rng i)
    unfold fernStep selIndex
    split_ifs <;> rfl

/-- Witness for C2 at a concrete stream and index. -/
theorem c2_selection_rule_witness :
    (0 : ℚ) ≤ rngHalf 5 ∧ rngHalf 5 < 1 ∧
    ((∃! t : Fin 4, firstExceeding (rngHalf 5) t) ∧
     ∀ t : Fin 4, firstExceeding (rngHalf 5) t →
       fernPoint rngHalf (5 + 1) = specTransform t (fernPoint rngHalf 5)) :=
  ⟨by norm_num [rngHalf], by norm_num [rngHalf],
   c2_selection_rule rngHalf 5 (by norm_num [rngHalf]) (by norm_num [rngHalf])⟩

/-! ## The for-loop runs exactly `n - 1` iterations (C7) -/

lemma loopState_succ (rng : ℕ → ℚ) (n k : ℕ) :
    loopState rng n (k + 1) =
      if (loopState rng n k).1 < n then
        ((loopState rng n k).1 + 1,
         fun j => if j = (loopState rng n k).1
           then fernStep (rng ((loopState rng n k).1 - 1))
                  ((loopState rng n k).2 ((loopState rng n k).1 - 1))
           else (loopState rng n k).2 j)
      else loopState rng n k := rfl

lemma loopState_spec (rng : ℕ → ℚ) (n : ℕ) :
    ∀ k, k ≤ n - 1 →
      (loopState rng n k).1 = 1 + k ∧
      ∀ j, j ≤ k → (loopState rng n k).2 j = fernPoint rng j := by
  intro k
  induction k with
  | zero =>
    intro _
    refine ⟨rfl, ?_⟩
    intro j hj
    have hj0 : j = 0 := by omega
    subst hj0
    rfl
  | succ k ih =>
    intro hk
    obtain ⟨hctr, harr⟩ := ih (by omega)
    have hlt : (loopState rng n k).1 < n := by
      rw [hctr]; omega
    rw [loopState_succ, if_pos hlt]
    constructor
    · dsimp only
      rw [hctr]
      omega
    · intro j hj
      dsimp only
      by_cases hjk : j = (loopState rng n k).1
      · rw [if_pos hjk]
        subst hjk
        rw [hctr]
        have e1 : 1 + k - 1 = k := by omega
        rw [e1, harr k (le_refl k)]
        have e2 : 1 + k = k + 1 := by omega
        rw [e2]
        rfl
      · rw [if_neg hjk]
        have hne : j ≠ 1 + k := fun h => hjk (h.trans hctr.symm)
        exact harr j (by omega)

/-- C7: generation always terminates: the only terminal condition of the
single loop is the counter reaching `n`, the loop guard still holds after
every `k < n - 1` executed iterations, it fails for the first time after
exactly `n - 1` iterations, and at that point the arrays hold the generated
points. -/
theorem c7_terminates_after_n_sub_one_iterations (rng : ℕ → ℚ) (n : ℕ) (hn : 1 ≤ n) :
    (loopState rng n (n - 1)).1 = n ∧
    ¬ (loopState rng n (n - 1)).1 < n ∧
    (∀ k, k < n - 1 → (loopState rng n k).1 < n) ∧
    (∀ j, j < n → (loopState rng n (n - 1)).2 j = fernPoint rng j) := by
  have hfin := loopState_spec rng n (n - 1) (le_refl _)
  refine ⟨?_, ?_, ?_, ?_⟩
  · rw [hfin.1]; omega
  · rw [hfin.1]; omega
  · intro k hk
    rw [(loopState_spec rng n k (by omega)).1]
    omega
  · intro j hj
    exact hfin.2 j (by omega)

/-- Witness for C7 at `n = 3`. -/
theorem c7_terminates_after_n_sub_one_iterations_witness :
    1 ≤ 3 ∧ (loopState rngHalf 3 (3 - 1)).1 = 3 :=
  ⟨by norm_num, (c7_terminates_after_n_sub_one_iterations rngHalf 3 (by norm_num)).1⟩

/-! ## State threading: draw consumption and the frame (C6, C9) -/

lemma fernGenSt_state {W : Type} :
    ∀ (k : ℕ) (p : Point) (s : PyRandomState W),
      (fernGenSt k p s).2.stream = s.stream ∧
      (fernGenSt k p s).2.cursor = s.cursor + k ∧
      (fernGenSt k p s).2.world = s.world := by
  intro k
  induction k with
  | zero =>
    intro p s
    exact ⟨rfl, rfl, rfl⟩
  | succ k ih =>
    intro p s
    obtain ⟨h1, h2, h3⟩ :=
      ih (fernStep (s.stream s.cursor) p) ⟨s.stream, s.cursor + 1, s.world⟩
    refine ⟨h1, ?_, h3⟩
    show (fernGenSt k (fernStep (s.stream s.cursor) p) ⟨s.stream, s.cursor + 1, s.world⟩).2.cursor
        = s.cursor + (k + 1)
    rw [h2]
    show s.cursor + 1 + k = s.cursor + (k + 1)
    omega

lemma iterFrom_shift (g : ℕ → ℚ) (p : Point) :
    ∀ j, iterFrom g p (j + 1) = iterFrom (fun m => g (m + 1)) (fernStep (g 0) p) j := by
  intro j
  induction j with
  | zero => rfl
  | succ j ih =>
    show fernStep (g (j + 1)) (iterFrom g p (j + 1))
        = fernStep (g (j + 1)) (iterFrom (fun m => g (m + 1)) (fernStep (g 0) p) j)
    rw [ih]

lemma fernGenSt_fst {W : Type} :
    ∀ (k : ℕ) (p : Point) (s : PyRandomState W),
      (fernGenSt k p s).1 =
        (List.range k).map (fun j => iterFrom (fun m => s.stream (s.cursor + m)) p (j + 1)) := by
  intro k
  induction k with
  | zero => intro p s; rfl
  | succ k ih =>
    intro p s
    have step : (fernGenSt (k + 1) p s).1 =
        fernStep (s.stream s.cursor) p ::
          (fernGenSt k (fernStep (s.stream s.cursor) p) ⟨s.stream, s.cursor + 1, s.world⟩).1 := rfl
    rw [step, ih]
    rw [List.range_succ_eq_map, List.map_cons, List.map_map]
    have hfun : (fun j => iterFrom (fun m => s.stream (s.cursor + 1 + m))
          (fernStep (s.stream s.cursor) p) (j + 1))
        = ((fun j => iterFrom (fun m => s.stream (s.cursor + m)) p (j + 1)) ∘ Nat.succ) := by
      funext j
      show iterFrom (fun m => s.stream (s.cursor + 1 + m)) (fernStep (s.stream s.cursor) p) (j + 1)
          = iterFrom (fun m => s.stream (s.cursor + m)) p (j + 1 + 1)
      rw [iterFrom_shift (fun m => s.stream (s.cursor + m)) p (j + 1)]
      have hg : (fun m => s.stream (s.cursor + 1 + m))
          = (fun m => s.stream (s.cursor + (m + 1))) := by
        funext m
        exact congrArg s.stream (by omega)
      rw [hg]
      rfl
    refine congrArg₂ List.cons rfl ?_
    exact congrArg (fun f => List.map f (List.range k)) hfun

/-- Counterexample for C6 as stated: calling the generator does modify state
outside the sequence it returns, namely the global `random` module state: a
call with `N = 2` advances the global draw cursor. -/
theorem c6_counterexample : (barnsley_fern_st 2 st0).2.cursor ≠ st0.cursor := by
  decide

/-- C6 (amended): apart from consuming draws from the global `random` module
(which is global interpreter state, not an injected capability), the
generator is pure: it leaves every other piece of program state (`world`)
and the draw stream itself untouched, and its result is a function of `N`
and the draws alone, namely `barnsley_fern` applied to the stream of draws
starting at the current cursor. -/
theorem c6_pure_up_to_rng_cursor (W : Type) (n : ℤ) (s : PyRandomState W) :
    (barnsley_fern_st n s).2.world = s.world ∧
    (barnsley_fern_st n s).2.stream = s.stream ∧
    (barnsley_fern_st n s).1 = barnsley_fern n (fun i => s.stream (s.cursor + i)) := by
  unfold barnsley_fern_st barnsley_fern
  split_ifs with h0 h1
  · exact ⟨rfl, rfl, rfl⟩
  · exact ⟨rfl, rfl, rfl⟩
  · obtain ⟨hs, hc, hw⟩ := fernGenSt_state (n.toNat - 1) ((0 : ℚ), (0 : ℚ)) s
    refine ⟨hw, hs, ?_⟩
    show Except.ok (((0 : ℚ), (0 : ℚ)) :: (fernGenSt (n.toNat - 1) ((0 : ℚ), (0 : ℚ)) s).1)
        = Except.ok ((List.range n.toNat).map (fernPoint (fun i => s.stream (s.cursor + i))))
    rw [fernGenSt_fst]
    have hn : 1 ≤ n := by omega
    obtain ⟨k, hk⟩ : ∃ k, n.toNat = k + 1 := ⟨n.toNat - 1, by omega⟩
    have hk1 : n.toNat - 1 = k := by omega
    rw [hk1, hk, List.range_succ_eq_map, List.map_cons, List.map_map]
    rfl

/-- C9: for every `N ≥ 1` the generator consumes exactly `N - 1` draws from
the global random stream: the cursor advances by `N - 1`, one draw per
generated point after index 0 and none for index 0. -/
theorem c9_consumes_n_sub_one_draws (W : Type) (n : ℤ) (s : PyRandomState W) (h : 1 ≤ n) :
    (barnsley_fern_st n s).2.cursor = s.cursor + (n.toNat - 1) := by
  unfold barnsley_fern_st
  rw [if_neg (by omega), if_neg (by omega)]
  exact (fernGenSt_state (n.toNat - 1) ((0 : ℚ), (0 : ℚ)) s).2.1

/-- Witness for C9 at `N = 3`. -/
theorem c9_consumes_n_sub_one_draws_witness :
    (1 : ℤ) ≤ 3 ∧ (barnsley_fern_st 3 st0).2.cursor = st0.cursor + ((3 : ℤ).toNat - 1) :=
  ⟨by norm_num, c9_consumes_n_sub_one_draws Unit 3 st0 (by norm_num)⟩
